import Mathlib

/-!
Verification of `create_assets.py`: a generator that turns a fixed table of
named colors (light/dark hex strings, optional alpha) into Xcode asset-catalog
`Contents.json` descriptors, one `<name>.colorset` directory per entry.

The script is embedded shallowly:
* Python strings are Lean `String`s (character = Unicode code point, accessed
  through `Char.toNat`; the ASCII fragment is all the program ever touches).
* Python `int(s, 16)` is `pyIntHex` on the string's character list, modelling
  CPython's grammar for base-16 conversion restricted to ASCII input:
  optional surrounding whitespace, optional sign, optional `0x`/`0X` prefix
  (itself optionally followed by one underscore), then a nonempty digit string
  with single underscores allowed between digits.  Failure (Python
  `ValueError`) is `none`.
* Python floats in the table are exact decimal literals, embedded as `ℚ`;
  the `.3f` format rounds half-to-even, as CPython does on the exact value.
* The filesystem is a pair of maps (directory set, file contents); exceptions
  abort the run, so the driver returns `Option`.
-/

namespace CreateAssets

/-- ASCII whitespace stripped by Python's `int`: space, \t, \n, \v, \f, \r. -/
def isPySpace (c : Char) : Bool :=
  decide (c.toNat = 32 ∨ c.toNat = 9 ∨ c.toNat = 10 ∨ c.toNat = 11 ∨
    c.toNat = 12 ∨ c.toNat = 13)

/-- Base-16 digit characters accepted by Python's `int(_, 16)`: 0-9, a-f, A-F. -/
def isHexDigitChar (c : Char) : Bool :=
  decide ((48 ≤ c.toNat ∧ c.toNat ≤ 57) ∨ (97 ≤ c.toNat ∧ c.toNat ≤ 102) ∨
    (65 ≤ c.toNat ∧ c.toNat ≤ 70))

/-- Numeric value of a base-16 digit character. -/
def hexDigitVal (c : Char) : Nat :=
  if 48 ≤ c.toNat ∧ c.toNat ≤ 57 then c.toNat - 48
  else if 97 ≤ c.toNat ∧ c.toNat ≤ 102 then c.toNat - 87
  else c.toNat - 55

/-- Strip leading and trailing whitespace, as `int` does before parsing. -/
def trimWS (l : List Char) : List Char :=
  ((l.dropWhile isPySpace).reverse.dropWhile isPySpace).reverse

/-- Split an optional leading sign off the digit string; `int` allows one. -/
def stripSign (l : List Char) : Int × List Char :=
  match l with
  | c :: rest =>
    if c = '-' then (-1, rest) else if c = '+' then (1, rest) else (1, l)
  | [] => (1, l)

/-- Drop one underscore, if present, at the head (allowed right after `0x`). -/
def stripUnderscoreOnce (l : List Char) : List Char :=
  match l with
  | c :: rest => if c = '_' then rest else l
  | [] => l

/-- Strip an optional `0x`/`0X` prefix (plus one optional underscore after it). -/
def stripHexPrefix0x (l : List Char) : List Char :=
  match l with
  | c0 :: c1 :: rest =>
    if c0 = '0' ∧ (c1 = 'x' ∨ c1 = 'X') then stripUnderscoreOnce rest else l
  | _ => l

/-- Validity of underscore placement inside a digit string: an underscore must
be followed by a digit character, never by another underscore or the end. -/
def underscoreOK : List Char → Bool
  | [] => true
  | c :: cs =>
    if c = '_' then
      (match cs with
       | [] => false
       | d :: _ => !(d == '_') && underscoreOK cs)
    else underscoreOK cs

/-- A valid base-16 digit token: nonempty, not starting with an underscore,
made of hex digits and well-placed underscores. -/
def hexTokenOK (l : List Char) : Bool :=
  match l with
  | [] => false
  | c :: _ =>
    !(c == '_') && (l.all fun d => isHexDigitChar d || d == '_') && underscoreOK l

/-- Value of a valid digit token (underscores are ignored). -/
def hexValueOf (l : List Char) : Nat :=
  (l.filter fun c => !(c == '_')).foldl (fun a c => 16 * a + hexDigitVal c) 0

/-- Python's `int(s, 16)` on ASCII input; `none` models `ValueError`. -/
def pyIntHex (l : List Char) : Option Int :=
  let p := stripSign (trimWS l)
  let t := stripHexPrefix0x p.2
  if hexTokenOK t then some (p.1 * (hexValueOf t : Int)) else none

/-- Python slice `l[i:j]` (for `0 ≤ i ≤ j`): clamps at the list's end. -/
def pySlice (l : List Char) (i j : Nat) : List Char :=
  (l.drop i).take (j - i)

/-- `hex_to_rgb` from `create_assets.py`: strip leading `#` characters, then
parse the slices `[0:2]`, `[2:4]`, `[4:6]` as base-16 integers.  A `ValueError`
from any of the three conversions aborts (returns `none`). -/
def hex_to_rgb (s : String) : Option (Int × Int × Int) :=
  let h := s.data.dropWhile fun c => c = '#'
  match pyIntHex (pySlice h 0 2), pyIntHex (pySlice h 2 4), pyIntHex (pySlice h 4 6) with
  | some r, some g, some b => some (r, g, b)
  | _, _, _ => none

example : hex_to_rgb "#F6F2EE" = some (246, 242, 238) := by decide
example : hex_to_rgb "0E0E11" = some (14, 14, 17) := by decide
example : hex_to_rgb "12345" = some (18, 52, 5) := by decide
example : hex_to_rgb " A1234" = some (10, 18, 52) := by decide
example : hex_to_rgb "12" = none := by decide
example : hex_to_rgb "xyzxyz" = none := by decide
example : hex_to_rgb "##abcdef99" = some (171, 205, 239) := by decide

/-- Hexadecimal digit character, uppercase for 10..15 (Python format `X`). -/
def hexDigitChar (n : Nat) : Char :=
  Char.ofNat (if n < 10 then 48 + n else 55 + n)

/-- Decimal digit character. -/
def decDigitChar (n : Nat) : Char :=
  Char.ofNat (48 + n)

/-- Big-endian uppercase hex digits of `n`; fuel-driven so it computes by
structural recursion (the fuel `n + 1` always suffices). -/
def natHexDigitsAux : Nat → Nat → List Char
  | 0, _ => []
  | fuel + 1, n =>
    if n < 16 then [hexDigitChar n]
    else natHexDigitsAux fuel (n / 16) ++ [hexDigitChar (n % 16)]

/-- Big-endian uppercase hex digits of `n` (at least one digit). -/
def natHexDigits (n : Nat) : List Char :=
  natHexDigitsAux (n + 1) n

/-- Big-endian decimal digits of `n`; fuel-driven like `natHexDigitsAux`. -/
def natDecDigitsAux : Nat → Nat → List Char
  | 0, _ => []
  | fuel + 1, n =>
    if n < 10 then [decDigitChar n]
    else natDecDigitsAux fuel (n / 10) ++ [decDigitChar (n % 10)]

/-- Big-endian decimal digits of `n` (at least one digit). -/
def natDecDigits (n : Nat) : List Char :=
  natDecDigitsAux (n + 1) n

/-- Left-pad with `0` characters to width `w` (Python's `0`-fill). -/
def padLeftZeros (l : List Char) (w : Nat) : List Char :=
  List.replicate (w - l.length) '0' ++ l

/-- Python `format(n, "02X")`: uppercase hex, zero-padded to total width 2;
for a negative value the sign counts toward the width (`-10 ↦ "-A"`). -/
def pyFmtX2 (n : Int) : String :=
  if n < 0 then ⟨'-' :: padLeftZeros (natHexDigits n.natAbs) 1⟩
  else ⟨padLeftZeros (natHexDigits n.natAbs) 2⟩

example : "0x" ++ pyFmtX2 246 = "0xF6" := by decide
example : "0x" ++ pyFmtX2 10 = "0x0A" := by decide
example : "0x" ++ pyFmtX2 0 = "0x00" := by decide

/-- The nearest integer to `|q| * 1000`, rounding halves to even — what
CPython's `.3f` formatting computes on the exact value being formatted.
Computed on numerator and denominator with integer arithmetic (rather than
with `ℚ` field operations, which are irreducible) so that it evaluates inside
the kernel: with `n = |num| * 1000` and `d = den`, the fractional part of
`n / d` is `(n % d) / d`, compared against `1 / 2` by cross-multiplication. -/
def rhe1000 (q : ℚ) : Nat :=
  let n := q.num.natAbs * 1000
  let d := q.den
  let f := n / d
  let rem := n % d
  if 2 * rem < d then f
  else if d < 2 * rem then f + 1
  else if f % 2 = 0 then f else f + 1

/-- Python `f"{q:.3f}"` on the exact (rational) value: sign of the value, then
the half-even rounding of `|q| * 1000` rendered with a 3-digit zero-padded
fractional part. -/
def pyFmtF3 (q : ℚ) : String :=
  let m := rhe1000 q
  let body := natDecDigits (m / 1000) ++ '.' :: padLeftZeros (natDecDigits (m % 1000)) 3
  ⟨if q.num < 0 then '-' :: body else body⟩

example : pyFmtF3 1 = "1.000" := by decide
example : pyFmtF3 (mkRat 6 100) = "0.060" := by decide
example : pyFmtF3 (mkRat 1 16) = "0.062" := by decide
example : pyFmtF3 (mkRat 3 16) = "0.188" := by decide
example : pyFmtF3 (mkRat 1 2) = "0.500" := by decide

/-- One entry of the `colors` table: a light and a dark hex string, with
independently optional alphas (Python `dict.get` with default `1.0`). -/
structure ColorDef where
  light : String
  dark : String
  light_alpha : Option ℚ := none
  dark_alpha : Option ℚ := none
deriving DecidableEq

/-- The `components` sub-dictionary of a variant (all values are strings). -/
structure ColorComponents where
  alpha : String
  blue : String
  green : String
  red : String
deriving DecidableEq

/-- One element of a variant's `appearances` list. -/
structure AppearanceTag where
  appearance : String
  value : String
deriving DecidableEq

/-- The `color` sub-dictionary of a variant. -/
structure ColorPayload where
  colorSpace : String
  components : ColorComponents
deriving DecidableEq

/-- One entry of the descriptor's `colors` list.  `appearances` is `none` when
the key is absent (the light/default variant). -/
structure ColorVariant where
  appearances : Option (List AppearanceTag)
  color : ColorPayload
  idiom : String
deriving DecidableEq

/-- The full `Contents.json` object: variant list plus fixed metadata. -/
structure ContentsFile where
  colors : List ColorVariant
  infoAuthor : String
  infoVersion : Nat
deriving DecidableEq

/-- The pure part of `create_color_set`: build the descriptor from a
`ColorDef`.  `none` models the `ValueError` a bad hex string would raise.
Field order and constants mirror the dict literals in the script. -/
def buildContents (cd : ColorDef) : Option ContentsFile :=
  match hex_to_rgb cd.light, hex_to_rgb cd.dark with
  | some (r, g, b), some (rd, gd, bd) =>
    some
      { colors := [
          { appearances := none,
            color := {
              colorSpace := "srgb",
              components := {
                alpha := pyFmtF3 (cd.light_alpha.getD 1),
                blue := "0x" ++ pyFmtX2 b,
                green := "0x" ++ pyFmtX2 g,
                red := "0x" ++ pyFmtX2 r } },
            idiom := "universal" },
          { appearances := some [{ appearance := "luminosity", value := "dark" }],
            color := {
              colorSpace := "srgb",
              components := {
                alpha := pyFmtF3 (cd.dark_alpha.getD 1),
                blue := "0x" ++ pyFmtX2 bd,
                green := "0x" ++ pyFmtX2 gd,
                red := "0x" ++ pyFmtX2 rd } },
            idiom := "universal" } ],
        infoAuthor := "xcode",
        infoVersion := 1 }
  | _, _ => none

/-- JSON string literal.  The strings this program emits (hex renderings,
fixed tags, formatted alphas) contain no characters that `json.dump` would
escape, so quoting is plain. -/
def jstr (s : String) : String :=
  "\"" ++ s ++ "\""

/-- Serialization of one appearance record at its depth in the document,
as `json.dump(..., indent=2)` lays it out. -/
def serializeAppearance (a : AppearanceTag) : String :=
  "        \x7b\n          \"appearance\": " ++ jstr a.appearance ++
  ",\n          \"value\": " ++ jstr a.value ++ "\n        \x7d"

/-- Serialization of one variant of the `colors` list (depth 2); the
`appearances` key is emitted first and only when present, matching the dict
insertion order in the script. -/
def serializeVariant (v : ColorVariant) : String :=
  "    \x7b\n" ++
  (match v.appearances with
   | none => ""
   | some l =>
     "      \"appearances\": [\n" ++
     String.intercalate ",\n" (l.map serializeAppearance) ++
     "\n      ],\n") ++
  "      \"color\": \x7b\n        \"color-space\": " ++ jstr v.color.colorSpace ++
  ",\n        \"components\": \x7b\n          \"alpha\": " ++ jstr v.color.components.alpha ++
  ",\n          \"blue\": " ++ jstr v.color.components.blue ++
  ",\n          \"green\": " ++ jstr v.color.components.green ++
  ",\n          \"red\": " ++ jstr v.color.components.red ++
  "\n        \x7d\n      \x7d,\n      \"idiom\": " ++ jstr v.idiom ++ "\n    \x7d"

/-- `json.dump(contents, f, indent=2)` for the fixed document shape the script
builds (the `colors` list is always nonempty there). -/
def serializeContents (c : ContentsFile) : String :=
  "\x7b\n  \"colors\": [\n" ++
  String.intercalate ",\n" (c.colors.map serializeVariant) ++
  "\n  ],\n  \"info\": \x7b\n    \"author\": " ++ jstr c.infoAuthor ++
  ",\n    \"version\": " ++ toString c.infoVersion ++ "\n  \x7d\n\x7d"

/-- The hardcoded output root. -/
def assets_path : String :=
  "/Users/guo/Documents/iOS/KuaiJi/KuaiJi_IOSApp/KuaiJi/Assets.xcassets"

/-- `os.path.join` for an absolute head and a relative tail. -/
def pathJoin (a b : String) : String :=
  a ++ "/" ++ b

/-- Directory created for a color name. -/
def colorsetDir (n : String) : String :=
  pathJoin assets_path (n ++ ".colorset")

/-- Path of the `Contents.json` written for a color name. -/
def contentsPath (n : String) : String :=
  pathJoin (colorsetDir n) "Contents.json"

/-- The filesystem, as far as the script observes it: which directories exist
and what each file contains. -/
structure FS where
  isDir : String → Bool
  contentsOf : String → Option String

/-- `os.makedirs(p, exist_ok=True)`: idempotent directory creation.  (Parent
creation and collisions with non-directories are below this model's
granularity; the script only ever looks at the `.colorset` directories.) -/
def mkdirExistOk (p : String) (fs : FS) : FS :=
  { fs with isDir := fun r => (r == p) || fs.isDir r }

/-- Writing a file, overwriting whatever was there. -/
def writeFS (p s : String) (fs : FS) : FS :=
  { fs with contentsOf := fun r => if r = p then some s else fs.contentsOf r }

/-- Program state: the in-memory color table, the filesystem, and the console
lines printed so far. -/
structure PyState where
  table : List (String × ColorDef)
  fs : FS
  log : List String

/-- `create_color_set(name, color_def)`: make the directory, build the
descriptor, write `Contents.json`.  `none` models an uncaught exception. -/
def create_color_set (n : String) (cd : ColorDef) (st : PyState) : Option PyState :=
  match buildContents cd with
  | none => none
  | some c =>
    some { st with
      fs := writeFS (contentsPath n) (serializeContents c) (mkdirExistOk (colorsetDir n) st.fs) }

/-- The driver loop over a list of table entries: process each entry, then
print `Created <name>.colorset`. -/
def runEntries : List (String × ColorDef) → PyState → Option PyState
  | [], st => some st
  | e :: rest, st =>
    match create_color_set e.1 e.2 st with
    | none => none
    | some st1 =>
      runEntries rest { st1 with log := st1.log ++ ["Created " ++ e.1 ++ ".colorset"] }

/-- The whole script: iterate the in-memory `colors` table. -/
def runProgram (st : PyState) : Option PyState :=
  runEntries st.table st

/-- The hardcoded `colors` table, in its literal (dict insertion) order.
Decimal float literals are embedded as exact rationals. -/
def colors : List (String × ColorDef) := [
  ("BrandPrimary", { light := "#7A4A2A", dark := "#7A4A2A" }),
  ("Background", { light := "#F6F2EE", dark := "#0E0E11" }),
  ("Surface", { light := "#FFFFFF", dark := "#18181B" }),
  ("SurfaceAlt", { light := "#FBF8F4", dark := "#FBF8F4" }),
  ("TextPrimary", { light := "#3A2B22", dark := "#C9C7C4" }),
  ("SecondaryText", { light := "#9C8F86", dark := "#C9C7C4" }),
  ("LedgerContentText", { light := "#3B291E", dark := "#C9C7C4" }),
  ("Success", { light := "#3BAF6A", dark := "#3BAF6A" }),
  ("Danger", { light := "#E56A5E", dark := "#E56A5E" }),
  ("Info", { light := "#7A93E0", dark := "#7A93E0" }),
  ("Warning", { light := "#FF9500", dark := "#FF9500" }),
  ("ToggleOn", { light := "#F5973C", dark := "#F5973C" }),
  ("ToggleOff", { light := "#E1D9D3", dark := "#E1D9D3" }),
  ("Selection", { light := "#007AFF", dark := "#0A84FF" }),
  ("CardShadow", { light := "#000000", light_alpha := some (mkRat 6 100),
                   dark := "#FFFFFF", dark_alpha := some (mkRat 6 100) })]

/-- The state at the start of the run: the literal table, an empty filesystem
view, nothing printed. -/
def initState : PyState :=
  { table := colors
    fs := { isDir := fun _ => false, contentsOf := fun _ => none }
    log := [] }

example : (colors.all fun e => (buildContents e.2).isSome) = true := by decide

set_option maxRecDepth 10000 in
example :
    (buildContents { light := "#F6F2EE", dark := "#0E0E11" }).map serializeContents =
      some "\x7b\n  \"colors\": [\n    \x7b\n      \"color\": \x7b\n        \"color-space\": \"srgb\",\n        \"components\": \x7b\n          \"alpha\": \"1.000\",\n          \"blue\": \"0xEE\",\n          \"green\": \"0xF2\",\n          \"red\": \"0xF6\"\n        \x7d\n      \x7d,\n      \"idiom\": \"universal\"\n    \x7d,\n    \x7b\n      \"appearances\": [\n        \x7b\n          \"appearance\": \"luminosity\",\n          \"value\": \"dark\"\n        \x7d\n      ],\n      \"color\": \x7b\n        \"color-space\": \"srgb\",\n        \"components\": \x7b\n          \"alpha\": \"1.000\",\n          \"blue\": \"0x11\",\n          \"green\": \"0x0E\",\n          \"red\": \"0x0E\"\n        \x7d\n      \x7d,\n      \"idiom\": \"universal\"\n    \x7d\n  ],\n  \"info\": \x7b\n    \"author\": \"xcode\",\n    \"version\": 1\n  \x7d\n\x7d" := by
  decide

/-! ### Character-level facts used by the parser lemmas -/

theorem isPySpace_false_of_hex {c : Char} (h : isHexDigitChar c = true) :
    isPySpace c = false := by
  simp only [isHexDigitChar, decide_eq_true_eq] at h
  simp only [isPySpace, decide_eq_false_iff_not]
  omega

theorem ne_of_hex {c : Char} (h : isHexDigitChar c = true) (d : Char)
    (hd : isHexDigitChar d = false) : c ≠ d := by
  intro e
  rw [e, hd] at h
  cases h

theorem hexDigitVal_lt {c : Char} (h : isHexDigitChar c = true) :
    hexDigitVal c < 16 := by
  simp only [isHexDigitChar, decide_eq_true_eq] at h
  unfold hexDigitVal
  split_ifs <;> omega

/-- `int(s, 16)` on a string of exactly two hex digits. -/
theorem pyIntHex_pair {a b : Char} (ha : isHexDigitChar a = true)
    (hb : isHexDigitChar b = true) :
    pyIntHex [a, b] = some ((16 * hexDigitVal a + hexDigitVal b : Nat) : Int) := by
  have hsa := isPySpace_false_of_hex ha
  have hsb := isPySpace_false_of_hex hb
  have hminus : a ≠ '-' := ne_of_hex ha '-' (by decide)
  have hplus : a ≠ '+' := ne_of_hex ha '+' (by decide)
  have hus_a : a ≠ '_' := ne_of_hex ha '_' (by decide)
  have hus_b : b ≠ '_' := ne_of_hex hb '_' (by decide)
  have hbx : b ≠ 'x' := ne_of_hex hb 'x' (by decide)
  have hbX : b ≠ 'X' := ne_of_hex hb 'X' (by decide)
  have htrim : trimWS [a, b] = [a, b] := by
    simp [trimWS, List.dropWhile, hsa, hsb]
  have hsign : stripSign [a, b] = (1, [a, b]) := by
    simp [stripSign, hminus, hplus]
  have hpre : stripHexPrefix0x [a, b] = [a, b] := by
    show (if a = '0' ∧ (b = 'x' ∨ b = 'X') then stripUnderscoreOnce [] else [a, b]) = [a, b]
    rw [if_neg]
    rintro ⟨-, h | h⟩
    · exact hbx h
    · exact hbX h
  have htok : hexTokenOK [a, b] = true := by
    simp [hexTokenOK, underscoreOK, ha, hb, hus_a, hus_b]
  have hval : hexValueOf [a, b] = 16 * hexDigitVal a + hexDigitVal b := by
    simp [hexValueOf, hus_a, hus_b]
  rw [pyIntHex, htrim, hsign, hpre, htok]
  simp [hval]

/-- `int(s, 16)` on a string of exactly one hex digit. -/
theorem pyIntHex_single {a : Char} (ha : isHexDigitChar a = true) :
    pyIntHex [a] = some ((hexDigitVal a : Nat) : Int) := by
  have hsa := isPySpace_false_of_hex ha
  have hminus : a ≠ '-' := ne_of_hex ha '-' (by decide)
  have hplus : a ≠ '+' := ne_of_hex ha '+' (by decide)
  have hus_a : a ≠ '_' := ne_of_hex ha '_' (by decide)
  have htrim : trimWS [a] = [a] := by
    simp [trimWS, List.dropWhile, hsa]
  have hsign : stripSign [a] = (1, [a]) := by
    simp [stripSign, hminus, hplus]
  have hpre : stripHexPrefix0x [a] = [a] := rfl
  have htok : hexTokenOK [a] = true := by
    simp [hexTokenOK, underscoreOK, ha, hus_a]
  rw [pyIntHex, htrim, hsign, hpre, htok]
  simp [hexValueOf, hus_a]

/-- The empty string is not a valid number. -/
theorem pyIntHex_nil : pyIntHex [] = none := by decide

/-! ### Rendering lemmas -/

/-- ASCII uppercase normalization of a character (`str.upper` on the ASCII
letters, identity elsewhere): the sense in which `0x{v:02X}` reproduces an
input digit "case-normalized to uppercase". -/
def upperChar (c : Char) : Char :=
  if 97 ≤ c.toNat ∧ c.toNat ≤ 122 then Char.ofNat (c.toNat - 32) else c

set_option maxRecDepth 10000 in
/-- `format(v, "02X")` of a two-digit value, digit by digit. -/
theorem pyFmtX2_pair :
    ∀ p : Fin 16 × Fin 16,
      pyFmtX2 ((16 * p.1.1 + p.2.1 : Nat) : Int) = ⟨[hexDigitChar p.1.1, hexDigitChar p.2.1]⟩ := by
  decide

/-- Rendering the value of a hex digit gives that digit, uppercased. -/
theorem hexDigitChar_val {c : Char} (h : isHexDigitChar c = true) :
    hexDigitChar (hexDigitVal c) = upperChar c := by
  simp only [isHexDigitChar, decide_eq_true_eq] at h
  rcases h with h | h | h
  · have hv : hexDigitVal c = c.toNat - 48 := by
      unfold hexDigitVal
      rw [if_pos h]
    rw [hv]
    unfold hexDigitChar upperChar
    rw [if_pos (by omega), if_neg (by omega), show 48 + (c.toNat - 48) = c.toNat by omega]
    exact Char.ofNat_toNat c
  · have hv : hexDigitVal c = c.toNat - 87 := by
      unfold hexDigitVal
      rw [if_neg (by omega), if_pos h]
    rw [hv]
    unfold hexDigitChar upperChar
    rw [if_neg (by omega), if_pos (by omega)]
    congr 1
    omega
  · have hv : hexDigitVal c = c.toNat - 55 := by
      unfold hexDigitVal
      rw [if_neg (by omega), if_neg (by omega)]
    rw [hv]
    unfold hexDigitChar upperChar
    rw [if_neg (by omega), if_neg (by omega), show 55 + (c.toNat - 55) = c.toNat by omega]
    exact Char.ofNat_toNat c

/-- Parsing two hex digits and re-rendering with `0x{v:02X}` reproduces the
two digits, uppercased. -/
theorem render_roundtrip_pair {a b : Char} (ha : isHexDigitChar a = true)
    (hb : isHexDigitChar b = true) :
    pyFmtX2 ((16 * hexDigitVal a + hexDigitVal b : Nat) : Int) =
      ⟨[upperChar a, upperChar b]⟩ := by
  have h := pyFmtX2_pair (⟨hexDigitVal a, hexDigitVal_lt ha⟩, ⟨hexDigitVal b, hexDigitVal_lt hb⟩)
  simpa [hexDigitChar_val ha, hexDigitChar_val hb] using h

/-- Parsing any string whose post-strip form is six hex digits (with any
number of stripped leading `#`, in particular zero or one). -/
theorem hex_to_rgb_of_stripped {s : String} {d1 d2 d3 d4 d5 d6 : Char}
    (hs : (s.data.dropWhile fun c => c = '#') = [d1, d2, d3, d4, d5, d6])
    (h1 : isHexDigitChar d1 = true) (h2 : isHexDigitChar d2 = true)
    (h3 : isHexDigitChar d3 = true) (h4 : isHexDigitChar d4 = true)
    (h5 : isHexDigitChar d5 = true) (h6 : isHexDigitChar d6 = true) :
    hex_to_rgb s =
      some (((16 * hexDigitVal d1 + hexDigitVal d2 : Nat) : Int),
        ((16 * hexDigitVal d3 + hexDigitVal d4 : Nat) : Int),
        ((16 * hexDigitVal d5 + hexDigitVal d6 : Nat) : Int)) := by
  unfold hex_to_rgb
  rw [hs]
  show (match pyIntHex [d1, d2], pyIntHex [d3, d4], pyIntHex [d5, d6] with
    | some r, some g, some b => some (r, g, b)
    | _, _, _ => none) = _
  rw [pyIntHex_pair h1 h2, pyIntHex_pair h3 h4, pyIntHex_pair h5 h6]

/-- C2: for a string of exactly 6 hex digits, optionally preceded by a single
`#`, parsing succeeds and re-rendering each channel as `0x%02X` reproduces the
corresponding two-digit group of the input, uppercased. -/
theorem claim2_parse_render_roundtrip (s : String) (d1 d2 d3 d4 d5 d6 : Char)
    (hs : s.data = [d1, d2, d3, d4, d5, d6] ∨ s.data = '#' :: [d1, d2, d3, d4, d5, d6])
    (hhex : ∀ c ∈ [d1, d2, d3, d4, d5, d6], isHexDigitChar c = true) :
    ∃ r g b : Int, hex_to_rgb s = some (r, g, b) ∧
      "0x" ++ pyFmtX2 r = ⟨['0', 'x', upperChar d1, upperChar d2]⟩ ∧
      "0x" ++ pyFmtX2 g = ⟨['0', 'x', upperChar d3, upperChar d4]⟩ ∧
      "0x" ++ pyFmtX2 b = ⟨['0', 'x', upperChar d5, upperChar d6]⟩ := by
  have h1 := hhex d1 (by simp)
  have h2 := hhex d2 (by simp)
  have h3 := hhex d3 (by simp)
  have h4 := hhex d4 (by simp)
  have h5 := hhex d5 (by simp)
  have h6 := hhex d6 (by simp)
  have hne1 : (decide (d1 = '#')) = false :=
    decide_eq_false (ne_of_hex h1 '#' (by decide))
  have hstrip : (s.data.dropWhile fun c => c = '#') = [d1, d2, d3, d4, d5, d6] := by
    rcases hs with hs | hs <;> rw [hs] <;> simp [List.dropWhile, hne1]
  refine ⟨_, _, _, hex_to_rgb_of_stripped hstrip h1 h2 h3 h4 h5 h6, ?_, ?_, ?_⟩ <;>
    · rw [render_roundtrip_pair (by assumption) (by assumption)]
      apply String.ext
      simp [String.data_append]

/-- A list of length at least six starts with six elements. -/
theorem exists_cons_six {α : Type} (l : List α) (h : 6 ≤ l.length) :
    ∃ a1 a2 a3 a4 a5 a6 t, l = a1 :: a2 :: a3 :: a4 :: a5 :: a6 :: t := by
  rcases l with - | ⟨a1, l⟩
  · simp at h
  rcases l with - | ⟨a2, l⟩
  · simp at h
  rcases l with - | ⟨a3, l⟩
  · simp at h
  rcases l with - | ⟨a4, l⟩
  · simp at h
  rcases l with - | ⟨a5, l⟩
  · simp at h
  rcases l with - | ⟨a6, l⟩
  · simp at h
  exact ⟨a1, a2, a3, a4, a5, a6, l, rfl⟩

/-- C9: the parser reads only the first six post-strip characters: whenever
those are hex digits, it succeeds, and longer inputs give the same triple as
their six-character prefix. -/
theorem claim9_prefix_determines (s : String)
    (hlen : 6 ≤ (s.data.dropWhile fun c => c = '#').length)
    (hhex : ((s.data.dropWhile fun c => c = '#').take 6).all isHexDigitChar = true) :
    (hex_to_rgb s).isSome = true ∧
      hex_to_rgb s = hex_to_rgb ⟨(s.data.dropWhile fun c => c = '#').take 6⟩ := by
  obtain ⟨e1, e2, e3, e4, e5, e6, rest, ht⟩ :=
    exists_cons_six (s.data.dropWhile fun c => c = '#') hlen
  rw [ht] at hhex
  simp only [List.take, List.all_cons, List.all_nil, Bool.and_eq_true, Bool.and_true] at hhex
  obtain ⟨h1, h2, h3, h4, h5, h6⟩ := hhex
  rw [ht]
  have hne1 : (decide (e1 = '#')) = false :=
    decide_eq_false (ne_of_hex h1 '#' (by decide))
  have hstrip2 :
      ((⟨[e1, e2, e3, e4, e5, e6]⟩ : String).data.dropWhile fun c => c = '#') =
        [e1, e2, e3, e4, e5, e6] := by
    simp [List.dropWhile, hne1]
  have hmain : hex_to_rgb s =
      some (((16 * hexDigitVal e1 + hexDigitVal e2 : Nat) : Int),
        ((16 * hexDigitVal e3 + hexDigitVal e4 : Nat) : Int),
        ((16 * hexDigitVal e5 + hexDigitVal e6 : Nat) : Int)) := by
    unfold hex_to_rgb
    rw [ht]
    show (match pyIntHex [e1, e2], pyIntHex [e3, e4], pyIntHex [e5, e6] with
      | some r, some g, some b => some (r, g, b)
      | _, _, _ => none) = _
    rw [pyIntHex_pair h1 h2, pyIntHex_pair h3 h4, pyIntHex_pair h5 h6]
  constructor
  · rw [hmain]
    rfl
  · rw [hmain]
    simp only [List.take_succ_cons, List.take_zero]
    rw [hex_to_rgb_of_stripped hstrip2 h1 h2 h3 h4 h5 h6]

/-- C4 counterexample: the claim says every wrong-length or non-hex input
fails, but `"12345"` (5 characters) parses to a triple, and `" A1234"`
(contains a space, which is not a hex digit) parses too, because Python's
`int` tolerates surrounding whitespace in each 2-character group. -/
theorem claim4_counterexample :
    hex_to_rgb "12345" = some (18, 52, 5) ∧ hex_to_rgb " A1234" = some (10, 18, 52) := by
  constructor <;> decide

/-- C4 amended: the parser fails whenever the post-strip input has fewer than
5 characters, or any of the three examined 2-character slices is not a valid
Python base-16 integer; wrong length alone does not force failure. -/
theorem claim4_amended_failure (s : String)
    (h : (s.data.dropWhile fun c => c = '#').length < 5 ∨
      pyIntHex (pySlice (s.data.dropWhile fun c => c = '#') 0 2) = none ∨
      pyIntHex (pySlice (s.data.dropWhile fun c => c = '#') 2 4) = none ∨
      pyIntHex (pySlice (s.data.dropWhile fun c => c = '#') 4 6) = none) :
    hex_to_rgb s = none := by
  unfold hex_to_rgb
  show (match pyIntHex (pySlice (s.data.dropWhile fun c => c = '#') 0 2),
      pyIntHex (pySlice (s.data.dropWhile fun c => c = '#') 2 4),
      pyIntHex (pySlice (s.data.dropWhile fun c => c = '#') 4 6) with
    | some r, some g, some b => some (r, g, b)
    | _, _, _ => none) = none
  rcases h with h | h | h | h
  · have hsl : pySlice (s.data.dropWhile fun c => c = '#') 4 6 = [] := by
      unfold pySlice
      rw [List.drop_eq_nil_of_le (by omega)]
      rfl
    rw [hsl, pyIntHex_nil]
    cases pyIntHex (pySlice (s.data.dropWhile fun c => c = '#') 0 2) <;>
      cases pyIntHex (pySlice (s.data.dropWhile fun c => c = '#') 2 4) <;> rfl
  · rw [h]
  · rw [h]
    cases pyIntHex (pySlice (s.data.dropWhile fun c => c = '#') 0 2) <;> rfl
  · rw [h]
    cases pyIntHex (pySlice (s.data.dropWhile fun c => c = '#') 0 2) <;>
      cases pyIntHex (pySlice (s.data.dropWhile fun c => c = '#') 2 4) <;> rfl

theorem claim4_amended_failure_witness :
    ("12".data.dropWhile fun c => c = '#').length < 5 ∧ hex_to_rgb "12" = none :=
  ⟨by decide, claim4_amended_failure "12" (Or.inl (by decide))⟩

/-! ### The per-entry descriptor shape (C1, C6) -/

/-- Uppercase hex digit character (0-9, A-F). -/
def isUpperHexDigitChar (c : Char) : Bool :=
  decide ((48 ≤ c.toNat ∧ c.toNat ≤ 57) ∨ (65 ≤ c.toNat ∧ c.toNat ≤ 70))

/-- A channel string of the exact shape `0x` followed by two uppercase
(zero-padded) hex digits. -/
def isHexByteStr (s : String) : Bool :=
  match s.data with
  | ['0', 'x', a, b] => isUpperHexDigitChar a && isUpperHexDigitChar b
  | _ => false

/-- All three channel strings of a variant have the `0xHH` shape. -/
def variantChannelsOK (v : ColorVariant) : Bool :=
  isHexByteStr v.color.components.red && isHexByteStr v.color.components.green &&
    isHexByteStr v.color.components.blue

/-- The C1 property of one table entry: the descriptor exists; its variant
list is exactly [light variant, dark variant] where the light variant (from
the `light` hex) carries no appearance tag and the dark variant (from the
`dark` hex) carries exactly the dark-luminosity tag; both carry color-space
`srgb` and idiom `universal`; and every channel renders as `0x` plus exactly
two uppercase hex digits. -/
def c1check (cd : ColorDef) : Bool :=
  match buildContents cd, hex_to_rgb cd.light, hex_to_rgb cd.dark with
  | some c, some (r, g, b), some (rd, gd, bd) =>
    match c.colors with
    | [lv, dv] =>
      (lv.appearances == none) &&
      (dv.appearances == some [{ appearance := "luminosity", value := "dark" }]) &&
      (lv.idiom == "universal") && (dv.idiom == "universal") &&
      (lv.color.colorSpace == "srgb") && (dv.color.colorSpace == "srgb") &&
      (lv.color.components.red == "0x" ++ pyFmtX2 r) &&
      (lv.color.components.green == "0x" ++ pyFmtX2 g) &&
      (lv.color.components.blue == "0x" ++ pyFmtX2 b) &&
      (dv.color.components.red == "0x" ++ pyFmtX2 rd) &&
      (dv.color.components.green == "0x" ++ pyFmtX2 gd) &&
      (dv.color.components.blue == "0x" ++ pyFmtX2 bd) &&
      variantChannelsOK lv && variantChannelsOK dv
    | _ => false
  | _, _, _ => false

set_option maxRecDepth 100000 in
/-- C1: every entry of the fixed table satisfies the full descriptor-shape
property `c1check`: variants ordered light then dark, the appearance tag only
on the dark variant, fixed `srgb`/`universal` tags, and `0xHH` channel
rendering with exactly two uppercase zero-padded digits. -/
theorem claim1_descriptor_shape : (colors.all fun e => c1check e.2) = true := by
  decide

/-- C6: an entry with neither alpha field supplied gets `"1.000"` as the alpha
of both emitted variants. -/
theorem claim6_default_alpha (cd : ColorDef) (hl : cd.light_alpha = none)
    (hd : cd.dark_alpha = none) (c : ContentsFile) (hc : buildContents cd = some c) :
    c.colors.map (fun v => v.color.components.alpha) = ["1.000", "1.000"] := by
  unfold buildContents at hc
  rcases h1 : hex_to_rgb cd.light with - | ⟨r, g, b⟩ <;> rw [h1] at hc
  · cases hc
  rcases h2 : hex_to_rgb cd.dark with - | ⟨rd, gd, bd⟩ <;> rw [h2] at hc
  · cases hc
  rw [hl, hd] at hc
  injection hc with hc
  subst hc
  show [pyFmtF3 ((none : Option ℚ).getD 1), pyFmtF3 ((none : Option ℚ).getD 1)] =
    ["1.000", "1.000"]
  decide

/-- The descriptor produced for a no-alpha entry, used by the C6 witness. -/
def c6sample : ContentsFile :=
  (buildContents { light := "#000000", dark := "#FFFFFF" }).getD
    { colors := [], infoAuthor := "", infoVersion := 0 }

theorem claim6_default_alpha_witness :
    buildContents { light := "#000000", dark := "#FFFFFF" } = some c6sample ∧
      c6sample.colors.map (fun v => v.color.components.alpha) = ["1.000", "1.000"] :=
  ⟨by decide,
    claim6_default_alpha { light := "#000000", dark := "#FFFFFF" } rfl rfl c6sample (by decide)⟩

theorem claim2_parse_render_roundtrip_witness :
    "#a1B2c3".data = '#' :: ['a', '1', 'B', '2', 'c', '3'] ∧
      ∃ r g b : Int, hex_to_rgb "#a1B2c3" = some (r, g, b) ∧
        "0x" ++ pyFmtX2 r = ⟨['0', 'x', upperChar 'a', upperChar '1']⟩ ∧
        "0x" ++ pyFmtX2 g = ⟨['0', 'x', upperChar 'B', upperChar '2']⟩ ∧
        "0x" ++ pyFmtX2 b = ⟨['0', 'x', upperChar 'c', upperChar '3']⟩ :=
  ⟨rfl, claim2_parse_render_roundtrip "#a1B2c3" 'a' '1' 'B' '2' 'c' '3' (Or.inr rfl)
    (by decide)⟩

theorem claim9_prefix_determines_witness :
    (6 ≤ ("##abcdef99".data.dropWhile fun c => c = '#').length ∧
      (("##abcdef99".data.dropWhile fun c => c = '#').take 6).all isHexDigitChar = true) ∧
      ((hex_to_rgb "##abcdef99").isSome = true ∧
        hex_to_rgb "##abcdef99" =
          hex_to_rgb ⟨("##abcdef99".data.dropWhile fun c => c = '#').take 6⟩) :=
  ⟨⟨by decide, by decide⟩, claim9_prefix_determines "##abcdef99" (by decide) (by decide)⟩

/-! ### Run-level lemmas: what a successful driver run does to the state -/

/-- Distinct names get distinct `Contents.json` paths. -/
theorem contentsPath_inj {n m : String} (h : contentsPath n = contentsPath m) : n = m := by
  unfold contentsPath colorsetDir pathJoin at h
  have hd := congrArg String.data h
  simp only [String.data_append, List.append_assoc] at hd
  have h1 := List.append_cancel_left hd
  have h2 := List.append_cancel_left h1
  exact String.ext (List.append_cancel_right h2)

/-- Unfolding a successful `create_color_set` call. -/
theorem create_color_set_some {n : String} {cd : ColorDef} {st st1 : PyState}
    (h : create_color_set n cd st = some st1) :
    ∃ c, buildContents cd = some c ∧
      st1 = { st with
        fs := writeFS (contentsPath n) (serializeContents c) (mkdirExistOk (colorsetDir n) st.fs) } := by
  unfold create_color_set at h
  cases hb : buildContents cd <;> rw [hb] at h
  · cases h
  · exact ⟨_, rfl, (Option.some_inj.mp h).symm⟩

/-- A successful run never touches the in-memory table. -/
theorem runEntries_table {l : List (String × ColorDef)} :
    ∀ {st st' : PyState}, runEntries l st = some st' → st'.table = st.table := by
  induction l with
  | nil =>
    intro st st' h
    cases h
    rfl
  | cons e rest ih =>
    intro st st' h
    unfold runEntries at h
    cases hc : create_color_set e.1 e.2 st <;> rw [hc] at h
    · cases h
    obtain ⟨c, -, rfl⟩ := create_color_set_some hc
    dsimp only at h
    exact (ih h).trans rfl

/-- A successful run appends exactly one console line per entry, in order. -/
theorem runEntries_log {l : List (String × ColorDef)} :
    ∀ {st st' : PyState}, runEntries l st = some st' →
      st'.log = st.log ++ l.map fun e => "Created " ++ e.1 ++ ".colorset" := by
  induction l with
  | nil =>
    intro st st' h
    cases h
    simp
  | cons e rest ih =>
    intro st st' h
    unfold runEntries at h
    cases hc : create_color_set e.1 e.2 st <;> rw [hc] at h
    · cases h
    obtain ⟨c, -, rfl⟩ := create_color_set_some hc
    dsimp only at h
    rw [ih h]
    simp

/-- Files not named `<entry>.colorset/Contents.json` for any entry are left
unchanged by a run. -/
theorem runEntries_contents_frame {l : List (String × ColorDef)} :
    ∀ {st st' : PyState}, runEntries l st = some st' →
      ∀ q, (∀ e ∈ l, q ≠ contentsPath e.1) →
        st'.fs.contentsOf q = st.fs.contentsOf q := by
  induction l with
  | nil =>
    intro st st' h q hq
    cases h
    rfl
  | cons e rest ih =>
    intro st st' h q hq
    unfold runEntries at h
    cases hc : create_color_set e.1 e.2 st <;> rw [hc] at h
    · cases h
    obtain ⟨c, -, rfl⟩ := create_color_set_some hc
    dsimp only at h
    rw [ih h q fun e' he' => hq e' (List.mem_cons_of_mem _ he')]
    show (if q = contentsPath e.1 then some (serializeContents c) else st.fs.contentsOf q) =
      st.fs.contentsOf q
    rw [if_neg (hq e (List.mem_cons_self e rest))]

/-- Exactly which directories exist after a run: the ones that existed before,
plus one `<name>.colorset` per processed entry. -/
theorem runEntries_isDir_total {l : List (String × ColorDef)} :
    ∀ {st st' : PyState}, runEntries l st = some st' →
      ∀ q, st'.fs.isDir q = (st.fs.isDir q || l.any fun e => q == colorsetDir e.1) := by
  induction l with
  | nil =>
    intro st st' h q
    cases h
    simp
  | cons e rest ih =>
    intro st st' h q
    unfold runEntries at h
    cases hc : create_color_set e.1 e.2 st <;> rw [hc] at h
    · cases h
    obtain ⟨c, -, rfl⟩ := create_color_set_some hc
    dsimp only at h
    rw [ih h q]
    show (((q == colorsetDir e.1) || st.fs.isDir q) || _) = _
    simp only [List.any_cons]
    cases st.fs.isDir q <;> cases q == colorsetDir e.1 <;> simp

/-- After a successful run over entries with pairwise-distinct names, the file
at an entry's path holds exactly that entry's serialized descriptor. -/
theorem runEntries_contents_mem {l : List (String × ColorDef)}
    (hnd : (l.map Prod.fst).Nodup) :
    ∀ {st st' : PyState}, runEntries l st = some st' →
      ∀ {n : String} {cd : ColorDef}, (n, cd) ∈ l →
        ∃ c, buildContents cd = some c ∧
          st'.fs.contentsOf (contentsPath n) = some (serializeContents c) := by
  induction l with
  | nil =>
    intro st st' h n cd hm
    cases hm
  | cons e rest ih =>
    rw [List.map_cons, List.nodup_cons] at hnd
    intro st st' h n cd hm
    unfold runEntries at h
    cases hc : create_color_set e.1 e.2 st <;> rw [hc] at h
    · cases h
    obtain ⟨c, hbc, rfl⟩ := create_color_set_some hc
    dsimp only at h
    rcases List.mem_cons.mp hm with rfl | hm'
    · refine ⟨c, hbc, ?_⟩
      have hframe : ∀ e' ∈ rest, contentsPath n ≠ contentsPath e'.1 := by
        intro e' he' heq
        have hmem : n ∈ rest.map Prod.fst := by
          rw [contentsPath_inj heq]
          exact List.mem_map_of_mem Prod.fst he'
        exact hnd.1 hmem
      rw [runEntries_contents_frame h _ hframe]
      show (if contentsPath n = contentsPath n then some (serializeContents c)
        else st.fs.contentsOf _) = _
      rw [if_pos rfl]
    · exact ih hnd.2 h hm'

/-- A permutation preserves `List.any`. -/
theorem perm_any {α : Type} (f : α → Bool) {l1 l2 : List α} (hp : l1.Perm l2) :
    l1.any f = l2.any f := by
  cases h2 : l2.any f
  · rw [List.any_eq_false] at h2 ⊢
    exact fun x hx => h2 x (hp.subset hx)
  · rw [List.any_eq_true] at h2 ⊢
    obtain ⟨x, hx, hfx⟩ := h2
    exact ⟨x, hp.symm.subset hx, hfx⟩

/-- The descriptor always holds exactly two variants. -/
theorem buildContents_length {cd : ColorDef} {c : ContentsFile}
    (hc : buildContents cd = some c) : c.colors.length = 2 := by
  unfold buildContents at hc
  rcases h1 : hex_to_rgb cd.light with - | ⟨r, g, b⟩ <;> rw [h1] at hc
  · cases hc
  rcases h2 : hex_to_rgb cd.dark with - | ⟨rd, gd, bd⟩ <;> rw [h2] at hc
  · cases hc
  injection hc with hc
  subst hc
  rfl

/-! ### The whole-run claims -/

/-- C3: running the generator twice in a row over the fixed table writes, for
every entry, identical `Contents.json` bytes on both runs. -/
theorem claim3_idempotent (st st1 st2 : PyState)
    (h1 : runEntries colors st = some st1) (h2 : runEntries colors st1 = some st2) :
    ∀ e ∈ colors, ∃ s, st1.fs.contentsOf (contentsPath e.1) = some s ∧
      st2.fs.contentsOf (contentsPath e.1) = some s := by
  intro e he
  have hnd : (colors.map Prod.fst).Nodup := by decide
  have hm : (e.1, e.2) ∈ colors := he
  obtain ⟨c, hc, hf1⟩ := runEntries_contents_mem hnd h1 hm
  obtain ⟨c', hc', hf2⟩ := runEntries_contents_mem hnd h2 hm
  exact ⟨serializeContents c, hf1, by
    rw [hf2, Option.some_inj.mp (hc'.symm.trans hc)]⟩

/-- C7: after a successful run on the fixed table, each entry's `.colorset`
directory exists and its `Contents.json` holds that entry's descriptor, whose
variant list has exactly 2 entries. -/
theorem claim7_output_layout (st st' : PyState) (h : runEntries colors st = some st') :
    ∀ e ∈ colors, st'.fs.isDir (colorsetDir e.1) = true ∧
      ∃ c, buildContents e.2 = some c ∧ c.colors.length = 2 ∧
        st'.fs.contentsOf (contentsPath e.1) = some (serializeContents c) := by
  intro e he
  have hnd : (colors.map Prod.fst).Nodup := by decide
  constructor
  · rw [runEntries_isDir_total h (colorsetDir e.1)]
    have hany : (colors.any fun e' => colorsetDir e.1 == colorsetDir e'.1) = true :=
      List.any_eq_true.mpr ⟨e, he, beq_self_eq_true _⟩
    rw [hany, Bool.or_true]
  · obtain ⟨c, hc, hf⟩ := runEntries_contents_mem hnd h (show (e.1, e.2) ∈ colors from he)
    exact ⟨c, hc, buildContents_length hc, hf⟩

/-- C8: running the generator over any permutation of the fixed table yields
the same directories and the same file contents; the console log is a
permutation (reordering) of the original one. -/
theorem claim8_order_independent (l : List (String × ColorDef)) (hp : colors.Perm l)
    (st st1 st2 : PyState)
    (h1 : runEntries colors st = some st1) (h2 : runEntries l st = some st2) :
    (∀ q, st1.fs.isDir q = st2.fs.isDir q) ∧
      (∀ q, st1.fs.contentsOf q = st2.fs.contentsOf q) ∧
      st1.log.Perm st2.log := by
  have hndc : (colors.map Prod.fst).Nodup := by decide
  have hndl : (l.map Prod.fst).Nodup := ((hp.map Prod.fst).nodup_iff).mp hndc
  refine ⟨?_, ?_, ?_⟩
  · intro q
    rw [runEntries_isDir_total h1 q, runEntries_isDir_total h2 q,
      perm_any (fun e => q == colorsetDir e.1) hp]
  · intro q
    by_cases hq : ∃ n cd, (n, cd) ∈ colors ∧ q = contentsPath n
    · obtain ⟨n, cd, hm, rfl⟩ := hq
      obtain ⟨c, hc, hf1⟩ := runEntries_contents_mem hndc h1 hm
      obtain ⟨c', hc', hf2⟩ := runEntries_contents_mem hndl h2 (hp.subset hm)
      rw [hf1, hf2, Option.some_inj.mp (hc'.symm.trans hc)]
    · push_neg at hq
      rw [runEntries_contents_frame h1 q fun e he => hq e.1 e.2 he,
        runEntries_contents_frame h2 q fun e he => hq e.1 e.2 (hp.symm.subset he)]
  · rw [runEntries_log h1, runEntries_log h2]
    exact (List.Perm.refl st.log).append (hp.map _)

/-- C10: a full run never mutates the in-memory color table; its only effects
are the per-entry directory creations, the per-entry `Contents.json` writes,
and the per-entry console lines (everything else in the state is unchanged). -/
theorem claim10_no_table_mutation (st st' : PyState) (h : runProgram st = some st') :
    st'.table = st.table ∧
      (∀ q, (∀ e ∈ st.table, q ≠ contentsPath e.1) →
        st'.fs.contentsOf q = st.fs.contentsOf q) ∧
      (∀ q, (∀ e ∈ st.table, q ≠ colorsetDir e.1) →
        st'.fs.isDir q = st.fs.isDir q) ∧
      st'.log = st.log ++ st.table.map fun e => "Created " ++ e.1 ++ ".colorset" := by
  unfold runProgram at h
  refine ⟨runEntries_table h, fun q hq => runEntries_contents_frame h q hq,
    fun q hq => ?_, runEntries_log h⟩
  rw [runEntries_isDir_total h q]
  have hany : (st.table.any fun e => q == colorsetDir e.1) = false :=
    List.any_eq_false.mpr fun e he => by
      simpa using hq e he
  rw [hany, Bool.or_false]

/-- Result state of one full run from the initial state (C3/C7/C8/C10
witnesses). -/
def stOnce : PyState :=
  (runEntries colors initState).getD initState

/-- Result state of a second run on top of the first (C3 witness). -/
def stTwice : PyState :=
  (runEntries colors stOnce).getD initState

/-- Result state of a run in reversed table order (C8 witness). -/
def stOnceRev : PyState :=
  (runEntries colors.reverse initState).getD initState

theorem claim3_idempotent_witness :
    runEntries colors initState = some stOnce ∧
      ∃ s, stOnce.fs.contentsOf (contentsPath "Background") = some s ∧
        stTwice.fs.contentsOf (contentsPath "Background") = some s :=
  ⟨rfl, claim3_idempotent initState stOnce stTwice rfl rfl
    ("Background", { light := "#F6F2EE", dark := "#0E0E11" }) (by decide)⟩

theorem claim7_output_layout_witness :
    runEntries colors initState = some stOnce ∧
      (stOnce.fs.isDir (colorsetDir "Background") = true ∧
        ∃ c, buildContents { light := "#F6F2EE", dark := "#0E0E11" } = some c ∧
          c.colors.length = 2 ∧
          stOnce.fs.contentsOf (contentsPath "Background") = some (serializeContents c)) :=
  ⟨rfl, claim7_output_layout initState stOnce rfl
    ("Background", { light := "#F6F2EE", dark := "#0E0E11" }) (by decide)⟩

theorem claim8_order_independent_witness :
    colors.Perm colors.reverse ∧
      stOnce.fs.contentsOf (contentsPath "Background") =
        stOnceRev.fs.contentsOf (contentsPath "Background") ∧
      stOnce.log.Perm stOnceRev.log :=
  have h := claim8_order_independent colors.reverse (List.reverse_perm colors).symm
    initState stOnce stOnceRev rfl rfl
  ⟨(List.reverse_perm colors).symm, h.2.1 (contentsPath "Background"), h.2.2⟩

theorem claim10_no_table_mutation_witness :
    runProgram initState = some stOnce ∧ stOnce.table = initState.table ∧
      stOnce.log = initState.log ++
        initState.table.map fun e => "Created " ++ e.1 ++ ".colorset" :=
  have h := claim10_no_table_mutation initState stOnce rfl
  ⟨rfl, h.1, h.2.2.2⟩

/-! ### C5: the `.3f` alpha format -/

/-- Decimal digit character. -/
def isDecDigitChar (c : Char) : Bool :=
  decide (48 ≤ c.toNat ∧ c.toNat ≤ 57)

/-- Value of a string of decimal digits. -/
def decDigitsVal (l : List Char) : Nat :=
  l.foldl (fun a c => 10 * a + (c.toNat - 48)) 0

/-- Reading a fixed-point decimal string back as an exact number (an optional
sign, an integer part, and after an optional dot a fractional part scaled by
`10 ^ length`), as `float(s)` does up to rounding. -/
def parseFixed (s : String) : Option ℚ :=
  let p := stripSign s.data
  let ip := p.2.takeWhile fun c => ¬ c = '.'
  let rest := p.2.dropWhile fun c => ¬ c = '.'
  match rest with
  | [] =>
    if ip ≠ [] ∧ ip.all isDecDigitChar then some ((p.1 : ℚ) * decDigitsVal ip) else none
  | _ :: fr =>
    if (ip ≠ [] ∨ fr ≠ []) ∧ ip.all isDecDigitChar ∧ fr.all isDecDigitChar then
      some ((p.1 : ℚ) * ((decDigitsVal ip : ℚ) + (decDigitsVal fr : ℚ) / (10 : ℚ) ^ fr.length))
    else none

theorem ne_of_decDigit {c : Char} (h : isDecDigitChar c = true) (d : Char)
    (hd : isDecDigitChar d = false) : c ≠ d := by
  intro e
  rw [e, hd] at h
  cases h

set_option maxRecDepth 100000 in
/-- Decimal rendering of a value below 1000: at most three digits, all decimal
digits, and zero-padding to width 3 parses back to the same value. -/
theorem decDigits_small :
    ∀ m : Fin 1000,
      (natDecDigits m.1).length ≤ 3 ∧ (natDecDigits m.1).all isDecDigitChar = true ∧
        decDigitsVal (padLeftZeros (natDecDigits m.1) 3) = m.1 := by
  decide

theorem padLeftZeros_length {l : List Char} (h : l.length ≤ 3) :
    (padLeftZeros l 3).length = 3 := by
  simp [padLeftZeros]
  omega

theorem padLeftZeros_digits {l : List Char} (h : l.all isDecDigitChar = true) :
    (padLeftZeros l 3).all isDecDigitChar = true := by
  simp only [padLeftZeros, List.all_append, Bool.and_eq_true, h, and_true]
  refine List.all_eq_true.mpr fun c hc => ?_
  rw [List.eq_of_mem_replicate hc]
  decide

/-- The rounded scaled alpha stays within `[0, 1000]` when the alpha is in
`[0, 1]`. -/
theorem rhe1000_le_of_le_one (q : ℚ) (h0 : 0 ≤ q) (h1 : q ≤ 1) : rhe1000 q ≤ 1000 := by
  have hnum0 : 0 ≤ q.num := Rat.num_nonneg.mpr h0
  have hd0 : 0 < q.den := q.pos
  have hnd : q.num ≤ (q.den : ℤ) := by
    have hle : (q.num : ℚ) ≤ (q.den : ℚ) := by
      have hq := Rat.num_div_den q
      rw [← hq] at h1
      exact (div_le_one (by exact_mod_cast hd0)).mp h1
    exact_mod_cast hle
  have habs : q.num.natAbs ≤ q.den := by omega
  have hnle : q.num.natAbs * 1000 ≤ 1000 * q.den := by omega
  have hcancel : 1000 * q.den / q.den = 1000 := by
    rw [Nat.mul_div_assoc 1000 dvd_rfl, Nat.div_self hd0, Nat.mul_one]
  have hf_le : q.num.natAbs * 1000 / q.den ≤ 1000 :=
    le_trans (Nat.div_le_div_right hnle) (le_of_eq hcancel)
  have hsucc : ∀ hrem0 : 0 < q.num.natAbs * 1000 % q.den,
      q.num.natAbs * 1000 / q.den + 1 ≤ 1000 := by
    intro hrem0
    have hne : q.num.natAbs * 1000 ≠ 1000 * q.den := by
      intro he
      rw [he, Nat.mul_mod_left] at hrem0
      exact lt_irrefl 0 hrem0
    have hlt : q.num.natAbs * 1000 < 1000 * q.den := lt_of_le_of_ne hnle hne
    have hflt : q.num.natAbs * 1000 / q.den < 1000 :=
      Nat.div_lt_of_lt_mul (by omega)
    omega
  show (if 2 * (q.num.natAbs * 1000 % q.den) < q.den then q.num.natAbs * 1000 / q.den
    else if q.den < 2 * (q.num.natAbs * 1000 % q.den) then q.num.natAbs * 1000 / q.den + 1
    else if q.num.natAbs * 1000 / q.den % 2 = 0 then q.num.natAbs * 1000 / q.den
    else q.num.natAbs * 1000 / q.den + 1) ≤ 1000
  split_ifs with hb1 hb2 hb3
  · exact hf_le
  · exact hsucc (by omega)
  · exact hf_le
  · exact hsucc (by omega)

/-- The half-even rounding of `q * 1000` is within one half of it. -/
theorem rhe1000_round (q : ℚ) (h0 : 0 ≤ q) :
    |(rhe1000 q : ℚ) - q * 1000| ≤ 1 / 2 := by
  have hnum0 : 0 ≤ q.num := Rat.num_nonneg.mpr h0
  have hd0 : 0 < q.den := q.pos
  have hdQ : (0 : ℚ) < (q.den : ℚ) := by exact_mod_cast hd0
  have hqden : q * (q.den : ℚ) = (q.num : ℚ) := by
    have hmul : ((q.num : ℚ) / (q.den : ℚ)) * (q.den : ℚ) = (q.num : ℚ) :=
      div_mul_cancel₀ _ (ne_of_gt hdQ)
    rw [Rat.num_div_den q] at hmul
    exact hmul
  have hn_cast : ((q.num.natAbs * 1000 : Nat) : ℚ) = q * 1000 * (q.den : ℚ) := by
    push_cast [Int.cast_natAbs]
    rw [abs_of_nonneg (by exact_mod_cast hnum0 : (0 : ℚ) ≤ (q.num : ℚ)), ← hqden]
    ring
  have hdm : q.den * (q.num.natAbs * 1000 / q.den) + q.num.natAbs * 1000 % q.den =
      q.num.natAbs * 1000 := Nat.div_add_mod _ _
  have hml : q.num.natAbs * 1000 % q.den < q.den := Nat.mod_lt _ hd0
  have hdmQ : (q.den : ℚ) * ((q.num.natAbs * 1000 / q.den : Nat) : ℚ) +
      ((q.num.natAbs * 1000 % q.den : Nat) : ℚ) = ((q.num.natAbs * 1000 : Nat) : ℚ) := by
    exact_mod_cast hdm
  have hmlQ : ((q.num.natAbs * 1000 % q.den : Nat) : ℚ) < (q.den : ℚ) := by
    exact_mod_cast hml
  have hremQ0 : (0 : ℚ) ≤ ((q.num.natAbs * 1000 % q.den : Nat) : ℚ) := by positivity
  have keyF : ((q.num.natAbs * 1000 / q.den : Nat) : ℚ) - q * 1000 =
      -(((q.num.natAbs * 1000 % q.den : Nat) : ℚ) / (q.den : ℚ)) := by
    rw [← neg_div, eq_div_iff (ne_of_gt hdQ)]
    linear_combination hdmQ + hn_cast
  have hlow : ∀ hb : 2 * (q.num.natAbs * 1000 % q.den) ≤ q.den,
      |((q.num.natAbs * 1000 / q.den : Nat) : ℚ) - q * 1000| ≤ 1 / 2 := by
    intro hb
    have hbQ : 2 * ((q.num.natAbs * 1000 % q.den : Nat) : ℚ) ≤ (q.den : ℚ) := by
      exact_mod_cast hb
    rw [keyF, abs_neg, abs_div, abs_of_nonneg hremQ0, abs_of_nonneg (le_of_lt hdQ),
      div_le_iff₀ hdQ]
    linarith
  have keyS : ((q.num.natAbs * 1000 / q.den + 1 : Nat) : ℚ) - q * 1000 =
      ((q.den : ℚ) - ((q.num.natAbs * 1000 % q.den : Nat) : ℚ)) / (q.den : ℚ) := by
    rw [eq_div_iff (ne_of_gt hdQ)]
    push_cast
    push_cast at hdmQ hn_cast
    linear_combination hdmQ + hn_cast
  have hhigh : ∀ hb : q.den ≤ 2 * (q.num.natAbs * 1000 % q.den),
      |((q.num.natAbs * 1000 / q.den + 1 : Nat) : ℚ) - q * 1000| ≤ 1 / 2 := by
    intro hb
    have hbQ : (q.den : ℚ) ≤ 2 * ((q.num.natAbs * 1000 % q.den : Nat) : ℚ) := by
      exact_mod_cast hb
    rw [keyS, abs_div, abs_of_nonneg (by linarith), abs_of_nonneg (le_of_lt hdQ),
      div_le_iff₀ hdQ]
    linarith
  show |((if 2 * (q.num.natAbs * 1000 % q.den) < q.den then q.num.natAbs * 1000 / q.den
    else if q.den < 2 * (q.num.natAbs * 1000 % q.den) then q.num.natAbs * 1000 / q.den + 1
    else if q.num.natAbs * 1000 / q.den % 2 = 0 then q.num.natAbs * 1000 / q.den
    else q.num.natAbs * 1000 / q.den + 1 : Nat) : ℚ) - q * 1000| ≤ 1 / 2
  split_ifs with hb1 hb2 hb3
  · exact hlow (by omega)
  · exact hhigh (by omega)
  · exact hlow (by omega)
  · exact hhigh (by omega)

/-- Reading back a one-digit integer part with a dotted fractional tail. -/
theorem parseFixed_digit_dot (c0 : Char) (post : List Char) (h0 : isDecDigitChar c0 = true)
    (hpost : post.all isDecDigitChar = true) :
    parseFixed ⟨c0 :: '.' :: post⟩ =
      some ((decDigitsVal [c0] : ℚ) + (decDigitsVal post : ℚ) / (10 : ℚ) ^ post.length) := by
  have hminus : c0 ≠ '-' := ne_of_decDigit h0 '-' (by decide)
  have hplus : c0 ≠ '+' := ne_of_decDigit h0 '+' (by decide)
  have hdot : c0 ≠ '.' := ne_of_decDigit h0 '.' (by decide)
  have hstripped : stripSign (c0 :: '.' :: post) = (1, c0 :: '.' :: post) := by
    simp [stripSign, hminus, hplus]
  unfold parseFixed
  rw [show (⟨c0 :: '.' :: post⟩ : String).data = c0 :: '.' :: post from rfl, hstripped]
  dsimp only
  have htake : ((c0 :: '.' :: post).takeWhile fun c => ¬ c = '.') = [c0] := by
    simp [List.takeWhile, hdot]
  have hdrop : ((c0 :: '.' :: post).dropWhile fun c => ¬ c = '.') = '.' :: post := by
    simp [List.dropWhile, hdot]
  rw [htake, hdrop]
  show (if ([c0] ≠ [] ∨ post ≠ []) ∧ [c0].all isDecDigitChar = true ∧
      post.all isDecDigitChar = true then
      some (((1 : ℤ) : ℚ) * ((decDigitsVal [c0] : ℚ) +
        (decDigitsVal post : ℚ) / (10 : ℚ) ^ post.length))
    else none) =
    some ((decDigitsVal [c0] : ℚ) + (decDigitsVal post : ℚ) / (10 : ℚ) ^ post.length)
  rw [if_pos ⟨Or.inl (List.cons_ne_nil c0 []), by simp [h0], hpost⟩,
    Int.cast_one, one_mul]

/-- C5: for every alpha in `[0, 1]`, the emitted alpha string is an integer
part, a dot, then exactly three decimal digits (and nothing else), and reading
it back as a number lands within `0.0005` of the original alpha. -/
theorem claim5_alpha_format (a : ℚ) (h0 : 0 ≤ a) (h1 : a ≤ 1) :
    ∃ pre post : List Char,
      (pyFmtF3 a).data = pre ++ '.' :: post ∧ post.length = 3 ∧
      pre.all isDecDigitChar = true ∧ post.all isDecDigitChar = true ∧
      ∃ v : ℚ, parseFixed (pyFmtF3 a) = some v ∧ |v - a| ≤ 1 / 2000 := by
  have hle := rhe1000_le_of_le_one a h0 h1
  have hround := rhe1000_round a h0
  have hnum0 : 0 ≤ a.num := Rat.num_nonneg.mpr h0
  have hfmt : (pyFmtF3 a).data =
      natDecDigits (rhe1000 a / 1000) ++ '.' ::
        padLeftZeros (natDecDigits (rhe1000 a % 1000)) 3 := by
    unfold pyFmtF3
    dsimp only
    rw [if_neg (not_lt.mpr hnum0)]
  obtain ⟨hlen3, hdig3, hval3⟩ :=
    decDigits_small ⟨rhe1000 a % 1000, Nat.mod_lt _ (by norm_num)⟩
  dsimp only at hlen3 hdig3 hval3
  have habs_div : ∀ v : ℚ, v = ((rhe1000 a : Nat) : ℚ) / 1000 → |v - a| ≤ 1 / 2000 := by
    intro v hv
    have hva : v - a = (((rhe1000 a : Nat) : ℚ) - a * 1000) / 1000 := by
      rw [hv]
      ring
    rw [hva, abs_div, abs_of_nonneg (by norm_num : (0 : ℚ) ≤ 1000)]
    linarith [hround]
  refine ⟨natDecDigits (rhe1000 a / 1000), padLeftZeros (natDecDigits (rhe1000 a % 1000)) 3,
    hfmt, padLeftZeros_length hlen3, ?_, padLeftZeros_digits hdig3, ?_⟩
  · have hip : rhe1000 a / 1000 = 0 ∨ rhe1000 a / 1000 = 1 := by omega
    rcases hip with hip | hip <;> rw [hip] <;> decide
  · have hip : rhe1000 a / 1000 = 0 ∨ rhe1000 a / 1000 = 1 := by omega
    have hstring : ∀ c0 : Char, natDecDigits (rhe1000 a / 1000) = [c0] →
        pyFmtF3 a = ⟨c0 :: '.' :: padLeftZeros (natDecDigits (rhe1000 a % 1000)) 3⟩ := by
      intro c0 hc0
      apply String.ext
      rw [hfmt, hc0]
      rfl
    rcases hip with hip | hip
    · have hm_lt : rhe1000 a % 1000 = rhe1000 a := Nat.mod_eq_of_lt (by omega)
      rw [hstring '0' (by rw [hip]; rfl),
        parseFixed_digit_dot '0' _ (by decide) (padLeftZeros_digits hdig3)]
      refine ⟨_, rfl, habs_div _ ?_⟩
      rw [padLeftZeros_length hlen3, hval3, hm_lt,
        show decDigitsVal ['0'] = 0 from rfl]
      push_cast
      norm_num
    · have hm_eq : rhe1000 a = 1000 := by omega
      have hm0 : rhe1000 a % 1000 = 0 := by omega
      rw [hstring '1' (by rw [hip]; rfl),
        parseFixed_digit_dot '1' _ (by decide) (padLeftZeros_digits hdig3)]
      refine ⟨_, rfl, habs_div _ ?_⟩
      rw [padLeftZeros_length hlen3, hval3, hm0, hm_eq,
        show decDigitsVal ['1'] = 1 from rfl]
      push_cast
      norm_num

theorem claim5_alpha_format_witness :
    (0 ≤ (mkRat 1 2 : ℚ) ∧ (mkRat 1 2 : ℚ) ≤ 1) ∧
      (∃ pre post : List Char,
        (pyFmtF3 (mkRat 1 2)).data = pre ++ '.' :: post ∧ post.length = 3 ∧
        pre.all isDecDigitChar = true ∧ post.all isDecDigitChar = true ∧
        ∃ v : ℚ, parseFixed (pyFmtF3 (mkRat 1 2)) = some v ∧ |v - mkRat 1 2| ≤ 1 / 2000) :=
  ⟨⟨by decide, by decide⟩, claim5_alpha_format (mkRat 1 2) (by decide) (by decide)⟩

end CreateAssets
